/-
Verification of the damn-differential ODE solver library.

Shallow embedding conventions.
* Rust `f64` values are modelled as elements of a linear ordered field
  (instantiated at ℚ for concrete evaluation, ℝ where the source uses
  `powf`), i.e. exact arithmetic stands in for floating point.
* A scalar derivative object (`trait ODE { fn eval(x, y) -> f64 }`) is a
  plain function `K → K → K`; a system derivative (`trait ODESYS`) is
  `K → List K → List K`.
* The scalar fixed-step solvers all share the literal loop shape
  `while x < x_target { y = <step>; x += h; }`.  We embed that loop once
  (`ivpLoop`), parameterised by the per-step update, and give each solver
  its source step body.  Rust's loop does not terminate for `h ≤ 0`; the
  embedding adds `0 < h` to the loop guard so that the function is total,
  which only changes behaviour on inputs where the source diverges.
* Fallible code (Rust indexing / `clone_from_slice` panics) is modelled
  with `Option`: `none` is a panic.
-/
import Mathlib

/-- Number of remaining loop iterations of a `while x < x_target` loop with
increment `h`; used only as a termination measure and step count. -/
def loopMeasure {K : Type} [LinearOrderedField K] [FloorRing K] (h xt x : K) : ℕ :=
  (⌈(xt - x) / h⌉).toNat

theorem loopMeasure_decr {K : Type} [LinearOrderedField K] [FloorRing K]
    {h xt x : K} (hx : x < xt) (hh : 0 < h) :
    loopMeasure h xt (x + h) < loopMeasure h xt x := by
  unfold loopMeasure
  have hq : (0 : K) < (xt - x) / h := div_pos (by linarith) hh
  have h1 : (0 : ℤ) < ⌈(xt - x) / h⌉ := Int.ceil_pos.mpr hq
  have h2 : (xt - (x + h)) / h = (xt - x) / h - 1 := by
    field_simp
    ring
  rw [h2, Int.ceil_sub_one]
  omega

/-- The common scalar solver loop
`while x < x_target { y = g x y; x += h; }`, returning the final `(x, y)`
pair.  `g` is the body of the particular method.  The extra `0 < h`
conjunct keeps the function total (the source loops forever for `h ≤ 0`
when `x < x_target`). -/
def ivpLoop {K : Type} [LinearOrderedField K] [FloorRing K]
    (g : K → K → K) (h xt : K) (x y : K) : K × K :=
  if hc : x < xt ∧ 0 < h then ivpLoop g h xt (x + h) (g x y) else (x, y)
termination_by loopMeasure h xt x
decreasing_by exact loopMeasure_decr hc.1 hc.2

/-- `n`-fold application of the loop body: the state after exactly `n`
steps from `(x, y)`. -/
def stepIter {K : Type} [LinearOrderedField K] (g : K → K → K) (h : K) (x y : K) : ℕ → K × K
  | 0 => (x, y)
  | n + 1 => stepIter g h (x + h) (g x y) n

section Scalar

variable {K : Type} [LinearOrderedField K] [FloorRing K]

/-- Body of one Euler step, from `eu_ivp`:
`let slope = ode.eval(x, y); y += h * slope`. -/
def euStep (f : K → K → K) (h x y : K) : K := y + h * f x y

/-- `eu_ivp` (src/ode/euler.rs). -/
def eu_ivp (f : K → K → K) (x0 y0 h xt : K) : K :=
  (ivpLoop (euStep f h) h xt x0 y0).2

/-- Body of one Heun step, from `he_ivp`:
`let y_ = y + h * slope; y += (eval(x+h, y_) + eval(x, y)) * h / 2.0`. -/
def heStep (f : K → K → K) (h x y : K) : K :=
  y + (f (x + h) (y + h * f x y) + f x y) * h / 2

/-- `he_ivp` (src/ode/heun.rs). -/
def he_ivp (f : K → K → K) (x0 y0 h xt : K) : K :=
  (ivpLoop (heStep f h) h xt x0 y0).2

/-- Body of one RK2 step, from `rk2_ivp`. -/
def rk2Step (f : K → K → K) (h x y : K) : K :=
  y + 0.5 * (h * f x y + h * f (x + h) (y + h * f x y))

/-- `rk2_ivp` (src/ode/rk.rs). -/
def rk2_ivp (f : K → K → K) (x0 y0 h xt : K) : K :=
  (ivpLoop (rk2Step f h) h xt x0 y0).2

/-- Body of one RK4 step, from `rk4_ivp`. -/
def rk4Step (f : K → K → K) (h x y : K) : K :=
  y + (h * f x y
       + 2 * (h * f (x + 0.5 * h) (y + 0.5 * (h * f x y)))
       + 2 * (h * f (x + 0.5 * h) (y + 0.5 * (h * f (x + 0.5 * h) (y + 0.5 * (h * f x y)))))
       + h * f (x + h) (y + h * f (x + 0.5 * h) (y + 0.5 * (h * f (x + 0.5 * h) (y + 0.5 * (h * f x y))))))
      / 6

/-- `rk4_ivp` (src/ode/rk.rs). -/
def rk4_ivp (f : K → K → K) (x0 y0 h xt : K) : K :=
  (ivpLoop (rk4Step f h) h xt x0 y0).2

/-- Body of one Adams-Bashforth step, from `ab_ivp`:
`f0 = eval(x, y); f1 = eval(x+h, y+h*f0); y += h * (1.5*f1 - 0.5*f0)`. -/
def abStep (f : K → K → K) (h x y : K) : K :=
  y + h * (1.5 * f (x + h) (y + h * f x y) - 0.5 * f x y)

/-- `ab_ivp` (src/ode/adams_bashforth.rs). -/
def ab_ivp (f : K → K → K) (x0 y0 h xt : K) : K :=
  (ivpLoop (abStep f h) h xt x0 y0).2

/-- Body of one Adams-Moulton step, from `am_ivp`:
`y += h * (5.0*f1 + 8.0*f0) / 12.0`. -/
def amStep (f : K → K → K) (h x y : K) : K :=
  y + h * (5 * f (x + h) (y + h * f x y) + 8 * f x y) / 12

/-- `am_ivp` (src/ode/adams_moulton.rs). -/
def am_ivp (f : K → K → K) (x0 y0 h xt : K) : K :=
  (ivpLoop (amStep f h) h xt x0 y0).2

/-- Body of one QSS1 step, from `qss1_ivp` (src/ode/qss1.rs); the source
body is literally the Euler body (no quantisation, no `delta_q`). -/
def qss1Step (f : K → K → K) (h x y : K) : K := y + h * f x y

/-- `qss1_ivp` (src/ode/qss1.rs). -/
def qss1_ivp (f : K → K → K) (x0 y0 h xt : K) : K :=
  (ivpLoop (qss1Step f h) h xt x0 y0).2

theorem loopMeasure_zero_of_ge {h xt x : K} (hh : 0 < h) (hx : xt ≤ x) :
    loopMeasure h xt x = 0 := by
  unfold loopMeasure
  have hle : (xt - x) / h ≤ 0 :=
    div_nonpos_of_nonpos_of_nonneg (by linarith) hh.le
  have : ⌈(xt - x) / h⌉ ≤ (0 : ℤ) := Int.ceil_le.mpr (by exact_mod_cast hle)
  omega

theorem loopMeasure_pos_succ {h xt x : K} (hh : 0 < h) (hx : x < xt) :
    loopMeasure h xt x = loopMeasure h xt (x + h) + 1 := by
  have hq : (0 : K) < (xt - x) / h := div_pos (by linarith) hh
  have h1 : (0 : ℤ) < ⌈(xt - x) / h⌉ := Int.ceil_pos.mpr hq
  have h2 : (xt - (x + h)) / h = (xt - x) / h - 1 := by
    field_simp
    ring
  unfold loopMeasure
  rw [h2, Int.ceil_sub_one]
  omega

theorem ivpLoop_eq_stepIter (g : K → K → K) {h : K} (xt : K) (hh : 0 < h) :
    ∀ x y, ivpLoop g h xt x y = stepIter g h x y (loopMeasure h xt x) := by
  suffices hs : ∀ n x y, loopMeasure h xt x = n →
      ivpLoop g h xt x y = stepIter g h x y n by
    intro x y
    exact hs _ x y rfl
  intro n
  induction n with
  | zero =>
    intro x y hn
    have hge : ¬ x < xt := by
      intro hx
      rw [loopMeasure_pos_succ hh hx] at hn
      omega
    rw [ivpLoop]
    simp [hge, stepIter]
  | succ n ih =>
    intro x y hn
    have hx : x < xt := by
      by_contra hge
      push_neg at hge
      rw [loopMeasure_zero_of_ge hh hge] at hn
      omega
    rw [ivpLoop]
    simp only [hx, hh, and_self, dif_pos]
    have hdec : loopMeasure h xt (x + h) = n := by
      rw [loopMeasure_pos_succ hh hx] at hn
      omega
    rw [ih _ _ hdec, stepIter]

theorem stepIter_fst (g : K → K → K) (h x y : K) :
    ∀ n, (stepIter g h x y n).1 = x + n * h := by
  intro n
  induction n generalizing x y with
  | zero => simp [stepIter]
  | succ n ih =>
    rw [stepIter, ih]
    push_cast
    ring

theorem loopMeasure_cast {h xt x : K} (hh : 0 < h) (hx : x < xt) :
    ((loopMeasure h xt x : ℕ) : K) = ((⌈(xt - x) / h⌉ : ℤ) : K) := by
  unfold loopMeasure
  have hq : (0 : K) < (xt - x) / h := div_pos (by linarith) hh
  have h1 : (0 : ℤ) ≤ ⌈(xt - x) / h⌉ := (Int.ceil_pos.mpr hq).le
  exact_mod_cast congrArg (fun z : ℤ => (z : K)) (Int.toNat_of_nonneg h1)

theorem final_x_ge {h xt x : K} (hh : 0 < h) :
    xt ≤ x + (loopMeasure h xt x : K) * h := by
  rcases lt_or_le x xt with hx | hx
  · have hle : (xt - x) / h ≤ ((⌈(xt - x) / h⌉ : ℤ) : K) := Int.le_ceil _
    rw [loopMeasure_cast hh hx]
    have := (div_le_iff₀ hh).mp hle
    linarith
  · have h0 := loopMeasure_zero_of_ge hh hx
    rw [h0]
    push_cast
    linarith

theorem final_x_lt {h xt x : K} (hh : 0 < h) (hx : x < xt) :
    x + (loopMeasure h xt x : K) * h < xt + h := by
  have hlt : ((⌈(xt - x) / h⌉ : ℤ) : K) < (xt - x) / h + 1 := Int.ceil_lt_add_one _
  rw [loopMeasure_cast hh hx]
  have h2 : ((⌈(xt - x) / h⌉ : ℤ) : K) * h < ((xt - x) / h + 1) * h :=
    mul_lt_mul_of_pos_right hlt hh
  have h3 : ((xt - x) / h + 1) * h = (xt - x) + h := by
    field_simp
  linarith [h2, h3.le]

theorem ivpLoop_of_ge (g : K → K → K) {h xt x : K} (y : K) (hx : xt ≤ x) :
    ivpLoop g h xt x y = (x, y) := by
  rw [ivpLoop]
  have : ¬ (x < xt ∧ 0 < h) := by
    intro hc
    exact absurd hc.1 (not_lt.mpr hx)
  simp [this]

end Scalar

section RKF

open Real

/-- Order-4 Fehlberg estimate: the source's `y_next`, i.e.
`y + c1*k1 + c3*k3 + c4*k4 + c5*k5` with the fourth-order weight row
`c = (25/216, 0, 1408/2565, 2197/4104, -1/5, 0)` of the standard Fehlberg
tableau, where `k1 .. k6` are the six stages of `step`
(src/ode/rkf.rs, lines 166-173). -/
noncomputable def rkfOrder4 (f : ℝ → ℝ → ℝ) (x y h : ℝ) : ℝ :=
  let k1 := h * f x y
  let k2 := h * f (x + 1/4 * h) (y + 1/4 * k1)
  let k3 := h * f (x + 3/8 * h) (y + 3/32 * k1 + 9/32 * k2)
  let k4 := h * f (x + 12/13 * h) (y + 1932/2197 * k1 + -7200/2197 * k2 + 7296/2197 * k3)
  let k5 := h * f (x + 1 * h) (y + 439/216 * k1 + -8 * k2 + 3680/513 * k3 + -845/4104 * k4)
  y + 25/216 * k1 + 1408/2565 * k3 + 2197/4104 * k4 + -1/5 * k5

/-- Order-5 Fehlberg estimate: the source's `y_next_star`, i.e.
`y + d1*k1 + d3*k3 + d4*k4 + d5*k5 + d6*k6` with the fifth-order weight
row `d = (16/135, 0, 6656/12825, 28561/56430, -9/50, 2/55)` of the
standard Fehlberg tableau (src/ode/rkf.rs, line 174). -/
noncomputable def rkfOrder5 (f : ℝ → ℝ → ℝ) (x y h : ℝ) : ℝ :=
  let k1 := h * f x y
  let k2 := h * f (x + 1/4 * h) (y + 1/4 * k1)
  let k3 := h * f (x + 3/8 * h) (y + 3/32 * k1 + 9/32 * k2)
  let k4 := h * f (x + 12/13 * h) (y + 1932/2197 * k1 + -7200/2197 * k2 + 7296/2197 * k3)
  let k5 := h * f (x + 1 * h) (y + 439/216 * k1 + -8 * k2 + 3680/513 * k3 + -845/4104 * k4)
  let k6 := h * f (x + 1/2 * h) (y + -8/27 * k1 + 2 * k2 + -3544/2565 * k3 + 1859/4104 * k4 + -11/40 * k5)
  y + 16/135 * k1 + 6656/12825 * k3 + 28561/56430 * k4 + -9/50 * k5 + 2/55 * k6

/-- `step` of `RKFODESolver` (src/ode/rkf.rs, lines 132-180): computes the
six Fehlberg stages, the two embedded estimates `y_next` (row `c`) and
`y_next_star` (row `d`), `error = |y_next - y_next_star|`, and returns
`(y_next, h * (tolerance/error)^0.2)`. -/
noncomputable def rkfStep (f : ℝ → ℝ → ℝ) (x y h tolerance : ℝ) : ℝ × ℝ :=
  let k1 := h * f x y
  let k2 := h * f (x + 1/4 * h) (y + 1/4 * k1)
  let k3 := h * f (x + 3/8 * h) (y + 3/32 * k1 + 9/32 * k2)
  let k4 := h * f (x + 12/13 * h) (y + 1932/2197 * k1 + -7200/2197 * k2 + 7296/2197 * k3)
  let k5 := h * f (x + 1 * h) (y + 439/216 * k1 + -8 * k2 + 3680/513 * k3 + -845/4104 * k4)
  let k6 := h * f (x + 1/2 * h) (y + -8/27 * k1 + 2 * k2 + -3544/2565 * k3 + 1859/4104 * k4 + -11/40 * k5)
  let y_next := y + 25/216 * k1 + 1408/2565 * k3 + 2197/4104 * k4 + -1/5 * k5
  let y_next_star := y + 16/135 * k1 + 6656/12825 * k3 + 28561/56430 * k4 + -9/50 * k5 + 2/55 * k6
  let error := |y_next - y_next_star|
  let h_new := h * (tolerance / error) ^ (0.2 : ℝ)
  (y_next, h_new)

/-- The `while x < x_target` loop of `rkf_ivp` (src/ode/rkf.rs,
lines 121-127).  Because the step size is rewritten each iteration the
source loop need not terminate even for positive initial `h`, so the
loop is modelled with explicit fuel: `fuel` bounds the number of
iterations, and once it runs out the current `y` is returned.  Every
claim below is about single iterations, which the fuel does not affect. -/
noncomputable def rkfLoop (f : ℝ → ℝ → ℝ) (xt tolerance : ℝ) :
    ℕ → ℝ → ℝ → ℝ → ℝ
  | 0, _, y, _ => y
  | n + 1, x, y, h =>
    if x < xt then
      rkfLoop f xt tolerance n (x + h) (rkfStep f x y h tolerance).1
        (rkfStep f x y h tolerance).2
    else y

/-- `rkf_ivp` (src/ode/rkf.rs, lines 115-130): runs the loop with the
tolerance fixed at `1e-6`. -/
noncomputable def rkf_ivp (fuel : ℕ) (f : ℝ → ℝ → ℝ) (x0 y0 h xt : ℝ) : ℝ :=
  rkfLoop f xt (1e-6) fuel x0 y0 h

end RKF

/-- The common vector solver loop `while x < x_target { ...; x += h; }`
for bodies that can panic (modelled `Option`); same totalisation of the
guard as `ivpLoop`. -/
def vecLoop {K : Type} [LinearOrderedField K] [FloorRing K]
    (body : K → List K → Option (List K)) (h xt : K) (x : K) (y : List K) :
    Option (List K) :=
  if hc : x < xt ∧ 0 < h then
    match body x y with
    | none => none
    | some y2 => vecLoop body h xt (x + h) y2
  else some y
termination_by loopMeasure h xt x
decreasing_by exact loopMeasure_decr hc.1 hc.2

/-- The common vector solver loop for bodies that cannot panic. -/
def vecLoopT {K : Type} [LinearOrderedField K] [FloorRing K]
    (body : K → List K → List K) (h xt : K) (x : K) (y : List K) : List K :=
  if hc : x < xt ∧ 0 < h then vecLoopT body h xt (x + h) (body x y) else y
termination_by loopMeasure h xt x
decreasing_by exact loopMeasure_decr hc.1 hc.2

section VectorDefs

variable {K : Type} [LinearOrderedField K] [FloorRing K]

/-- `add_vec` (src/ode_sys/mod.rs): elementwise sum via
`a.iter().zip(b.iter())`, silently truncating to the shorter length. -/
def add_vec (a b : List K) : List K := List.zipWith (fun u v => u + v) a b

/-- `vec_scalar_mul` (src/ode_sys/mod.rs): elementwise scale. -/
def vec_scalar_mul (a : List K) (s : K) : List K := a.map (fun v => v * s)

/-- Models the Rust pattern
`for (idx, val) in src.iter().enumerate() { dst[idx] = g(val); }`:
overwrites the first `src.length` entries of `dst`; panics (`none`) when
`src` is longer than `dst` (index out of bounds). -/
def scaleWriteF (dst src : List K) (g : K → K) : Option (List K) :=
  if src.length ≤ dst.length then some (src.map g ++ dst.drop src.length)
  else none

/-- Models the Rust pattern
`for (idx, val) in src.iter().enumerate() { dst[idx] += g(val); }`. -/
def addWriteF (dst src : List K) (g : K → K) : Option (List K) :=
  if src.length ≤ dst.length then
    some (List.zipWith (fun d s => d + g s) dst src ++ dst.drop src.length)
  else none

/-- Body of one `eu_solve` iteration (src/ode_sys/euler_sys.rs,
lines 99-112): `dy = vec_scalar_mul(eval(x, y), h)`, then
`y[idx] += dy[idx]` for each index of `dy`. -/
def euSysBody (f : K → List K → List K) (h : K) (x : K) (y : List K) : Option (List K) :=
  addWriteF y (vec_scalar_mul (f x y) h) (fun v => v)

/-- `eu_solve` (src/ode_sys/euler_sys.rs). -/
def eu_solve (f : K → List K → List K) (x : K) (y : List K) (xt h : K) : Option (List K) :=
  vecLoop (euSysBody f h) h xt x y

/-- `rk4_step` (src/ode_sys/rk_sys.rs, lines 114-135). -/
def rk4_step (x : K) (y_n : List K) (h : K) (f : K → List K → List K) : List K :=
  let k1 := vec_scalar_mul (f x y_n) h
  let k2 := vec_scalar_mul (f (x + h / 2) (add_vec y_n (vec_scalar_mul k1 0.5))) h
  let k3 := vec_scalar_mul (f (x + h / 2) (add_vec y_n (vec_scalar_mul k2 0.5))) h
  let k4 := vec_scalar_mul (f (x + h) (add_vec y_n k3)) h
  add_vec y_n
    (vec_scalar_mul
      (add_vec k1 (add_vec (vec_scalar_mul k2 2) (add_vec (vec_scalar_mul k3 2) k4)))
      (1 / 6))

/-- Body of one `rk_solve` iteration (src/ode_sys/rk_sys.rs,
lines 103-111): `y.clone_from_slice(&rk4_step(..))` panics when the
lengths differ. -/
def rkSysBody (f : K → List K → List K) (h : K) (x : K) (y : List K) : Option (List K) :=
  let result := rk4_step x y h f
  if result.length = y.length then some result else none

/-- `rk_solve` (src/ode_sys/rk_sys.rs). -/
def rk_solve (f : K → List K → List K) (x : K) (y : List K) (xt h : K) : Option (List K) :=
  vecLoop (rkSysBody f h) h xt x y

/-- Body of one `lf_solve` iteration (src/ode_sys/leapfrog.rs,
lines 99-124): two half-updates of `h/2 * dy`, with `x_val += h` between
them. -/
def lfBody (f : K → List K → List K) (h : K) (x : K) (y : List K) : Option (List K) :=
  match scaleWriteF (List.replicate y.length 0) (f x y) (fun v => v * h / 2) with
  | none => none
  | some half_dy =>
    let y1 := add_vec y half_dy
    match scaleWriteF (List.replicate y1.length 0) (f (x + h) y1) (fun v => v * h / 2) with
    | none => none
    | some next_half_dy => some (add_vec y1 next_half_dy)

/-- `lf_solve` (src/ode_sys/leapfrog.rs). -/
def lf_solve (f : K → List K → List K) (x : K) (y : List K) (xt h : K) : Option (List K) :=
  vecLoop (lfBody f h) h xt x y

/-- Body of one `fr_solve` iteration (src/ode_sys/forest_ruth.rs,
lines 103-139): four stages `k1..k4` at nodes `x, x+h/2, x+h/2, x+h`
with offsets `0.5*k1, 0.5*k2, 2.0*k3`, combined as
`y + (k1 + 2*(k2+k3) + k4)/6`.  Despite the name, no composition
coefficients appear: this is a plain RK4-style step (with the nonstandard
`2.0*k3` offset in stage 4). -/
def frBody (f : K → List K → List K) (h : K) (x : K) (y : List K) : List K :=
  let k1 := vec_scalar_mul (f x y) h
  let y_temp_1 := add_vec y (vec_scalar_mul k1 0.5)
  let k2 := vec_scalar_mul (f (x + h * 0.5) y_temp_1) h
  let y_temp_2 := add_vec y (vec_scalar_mul k2 0.5)
  let k3 := vec_scalar_mul (f (x + h * 0.5) y_temp_2) h
  let y_temp_3 := add_vec y (vec_scalar_mul k3 2)
  let k4 := vec_scalar_mul (f (x + h) y_temp_3) h
  add_vec y
    (vec_scalar_mul (add_vec k1 (add_vec (vec_scalar_mul (add_vec k2 k3) 2) k4)) (1 / 6))

/-- `fr_solve` (src/ode_sys/forest_ruth.rs). -/
def fr_solve (f : K → List K → List K) (x : K) (y : List K) (xt h : K) : List K :=
  vecLoopT (frBody f h) h xt x y

/-- Body of one `ia_solve` iteration (src/ode_sys/radau.rs,
lines 99-106). -/
def iaBody (f : K → List K → List K) (h : K) (x : K) (y : List K) : List K :=
  let k1 := f x (add_vec y (List.replicate y.length h))
  add_vec y (vec_scalar_mul k1 h)

/-- `ia_solve` (src/ode_sys/radau.rs). -/
def ia_solve (f : K → List K → List K) (x : K) (y : List K) (xt h : K) : List K :=
  vecLoopT (iaBody f h) h xt x y

/-- One iteration of `ve_solve` (src/ode_sys/verlet.rs, lines 13-42):
three kick stages; `x_val` advances by `h/2` after each stage (3·h/2 per
iteration).  `k2` is written but never read back. -/
def veIter (f : K → List K → List K) (h : K) : ℕ → K → List K → Option (List K)
  | 0, _, y => some y
  | n + 1, x, y =>
    let dy1 := f x y
    match scaleWriteF (List.replicate y.length 0) dy1 (fun v => v * (h / 2)) with
    | none => none
    | some k1 =>
      match addWriteF y dy1 (fun v => v * (h / 2)) with
      | none => none
      | some y1 =>
        let dy2 := f (x + h / 2) y1
        match scaleWriteF (List.replicate y.length 0) dy2 (fun v => v * h) with
        | none => none
        | some _k2 =>
          match addWriteF y1 dy2 (fun v => v * h) with
          | none => none
          | some y2 =>
            let dy3 := f (x + h / 2 + h / 2) y2
            match addWriteF k1 dy3 (fun v => v * (h / 2)) with
            | none => none
            | some k1b =>
              match addWriteF y2 (k1b.take dy3.length) (fun v => v) with
              | none => none
              | some y3 => veIter f h n (x + h / 2 + h / 2 + h / 2) y3

/-- `ve_solve` (src/ode_sys/verlet.rs): `h = (b - a) / n`, then `n`
iterations. -/
def ve_solve (f : K → List K → List K) (x : K) (y : List K) (a b : K) (n : ℕ) :
    Option (List K) :=
  veIter f ((b - a) / (n : K)) n x y

end VectorDefs

section Yoshida

/-- `c1 = 1.0 / (2.0 - 2.0_f64.powf(1.0/3.0))` (src/ode_sys/yoshida4.rs). -/
noncomputable def yoshidaC1 : ℝ := 1 / (2 - (2 : ℝ) ^ ((1 : ℝ) / 3))

/-- `c2 = -2.0_f64.powf(1.0/3.0) * c1`. -/
noncomputable def yoshidaC2 : ℝ := -(2 : ℝ) ^ ((1 : ℝ) / 3) * yoshidaC1

/-- `d1 = 1.0 - 2.0 * c1`. -/
noncomputable def yoshidaD1 : ℝ := 1 - 2 * yoshidaC1

/-- `d2 = 1.0 - 2.0 * c2`. -/
noncomputable def yoshidaD2 : ℝ := 1 - 2 * yoshidaC2

/-- One iteration of `Yoshida4thSysSolver::solve` (src/ode_sys/yoshida4.rs,
lines 19-36): `dy[idx] = k1[idx]*c1*h`; `y += d1*dy`; `y += c2*dy`;
`dy[idx] = k2[idx]*c1*h` (with `k2` evaluated at `x + c2*h`);
`y += d2*dy`. -/
noncomputable def yoshidaStep (f : ℝ → List ℝ → List ℝ) (h : ℝ) (x : ℝ) (y : List ℝ) :
    Option (List ℝ) :=
  match scaleWriteF (List.replicate y.length 0) (f x y) (fun v => v * yoshidaC1 * h) with
  | none => none
  | some dy =>
    let y1 := add_vec y (vec_scalar_mul dy yoshidaD1)
    let y2 := add_vec y1 (vec_scalar_mul dy yoshidaC2)
    match scaleWriteF dy (f (x + yoshidaC2 * h) y2) (fun v => v * yoshidaC1 * h) with
    | none => none
    | some dy2 => some (add_vec y2 (vec_scalar_mul dy2 yoshidaD2))

/-- The `for _i in 0..n` loop of `Yoshida4thSysSolver::solve`. -/
noncomputable def yoshidaIter (f : ℝ → List ℝ → List ℝ) (h : ℝ) :
    ℕ → ℝ → List ℝ → Option (List ℝ)
  | 0, _, y => some y
  | n + 1, x, y =>
    match yoshidaStep f h x y with
    | none => none
    | some y2 => yoshidaIter f h n (x + h) y2

/-- `Yoshida4thSysSolver::solve` (src/ode_sys/yoshida4.rs):
`h = (b - a) / n`, then `n` iterations. -/
noncomputable def yoshida4Solve (f : ℝ → List ℝ → List ℝ) (x : ℝ) (y : List ℝ)
    (a b : ℝ) (n : ℕ) : Option (List ℝ) :=
  yoshidaIter f ((b - a) / (n : ℝ)) n x y

end Yoshida

section QSSSys

variable {K : Type} [LinearOrderedField K]

/-- Models the final loop of `QSSSysSolver::solve`
(src/ode_sys/qss_sys.rs, lines 76-80):
`for i in 0..y.len() { if (y[i] - y[i]).abs() >= delta_q { y[i] += h * k1[i]; } }`.
`i` is the index of the current element; `k1[i]` out of bounds is a panic
(`none`). -/
def qssCommitGo (dq h : K) (k1 : List K) : ℕ → List K → Option (List K)
  | _, [] => some []
  | i, yi :: rest =>
    if |yi - yi| ≥ dq then
      match k1[i]? with
      | none => none
      | some k => Option.map (fun r => (yi + h * k) :: r) (qssCommitGo dq h k1 (i + 1) rest)
    else Option.map (fun r => yi :: r) (qssCommitGo dq h k1 (i + 1) rest)

/-- One iteration of `QSSSysSolver::solve` (src/ode_sys/qss_sys.rs,
lines 20-82).  The source binds `c1 = c2 = d1 = d2 = 0.5` before the
loop; those constants appear here as the literals `0.5`
(`val * 0.5 * h` stands for the source's `val * d1 * h` / `val * d2 * h`,
`x + 0.5 * h` for `x_val + c1 * h` / `x_val + c2 * h`, and the
`vec_scalar_mul .. 0.5` factors for `c1` / `c2`). -/
def qssSysStep (f : K → List K → List K) (h dq : K) (x : K) (y : List K) :
    Option (List K) :=
  let k1 := f x y
  (scaleWriteF (List.replicate y.length 0) k1 (fun v => v * h / 2)).bind (fun dy =>
  (scaleWriteF (List.replicate y.length 0) k1 (fun v => v * 0.5 * h)).bind (fun dy_temp =>
  let y1 := add_vec y (vec_scalar_mul dy 0.5)
  let k2 := f (x + 0.5 * h) y1
  (addWriteF dy_temp k2 (fun v => v * 0.5 * h)).bind (fun dy_temp2 =>
  let y2 := add_vec y1 (vec_scalar_mul dy_temp2 0.5)
  let k3 := f (x + 0.5 * h) y2
  (scaleWriteF dy k3 (fun v => v * h / 2)).bind (fun dy3 =>
  (scaleWriteF dy_temp2 k3 (fun v => v * 0.5 * h)).bind (fun dy_temp3 =>
  let y3 := add_vec y2 (vec_scalar_mul dy3 0.5)
  let k4 := f (x + 0.5 * h) y3
  (addWriteF dy_temp3 k4 (fun v => v * 0.5 * h)).bind (fun dy_temp4 =>
  let y4 := add_vec y3 (vec_scalar_mul dy_temp4 0.5)
  let k5 := f (x + 0.5 * h) y4
  (scaleWriteF dy3 k5 (fun v => v * h / 2)).bind (fun dy5 =>
  (scaleWriteF dy_temp4 k5 (fun v => v * 0.5 * h)).bind (fun dy_temp5 =>
  let y5 := add_vec y4 (vec_scalar_mul dy5 0.5)
  let k6 := f (x + 0.5 * h) y5
  (addWriteF dy_temp5 k6 (fun v => v * 0.5 * h)).bind (fun dy_temp6 =>
  let y6 := add_vec y5 (vec_scalar_mul dy_temp6 0.5)
  let k7 := f (x + 0.5 * h) y6
  (scaleWriteF dy5 k7 (fun v => v * h / 2)).bind (fun dy7 =>
  let y7 := add_vec y6 (vec_scalar_mul dy7 0.5)
  qssCommitGo dq h k1 0 y7))))))))))

/-- The `for _i in 0..n` loop of `QSSSysSolver::solve`. -/
def qssIter (f : K → List K → List K) (h dq : K) : ℕ → K → List K → Option (List K)
  | 0, _, y => some y
  | n + 1, x, y => (qssSysStep f h dq x y).bind (qssIter f h dq n (x + h))

/-- `QSSSysSolver::solve` (src/ode_sys/qss_sys.rs): `h = (b - a) / n`,
then `n` iterations. -/
def qssSysSolve (f : K → List K → List K) (x : K) (y : List K) (a b : K) (n : ℕ)
    (dq : K) : Option (List K) :=
  qssIter f ((b - a) / (n : K)) dq n x y

end QSSSys

section LengthLemmas

variable {K : Type} [LinearOrderedField K]

theorem add_vec_length (a b : List K) :
    (add_vec a b).length = min a.length b.length := by
  simp [add_vec]

theorem vec_scalar_mul_length (a : List K) (s : K) :
    (vec_scalar_mul a s).length = a.length := by
  simp [vec_scalar_mul]

theorem scaleWriteF_some {dst src : List K} (g : K → K)
    (hl : src.length ≤ dst.length) :
    scaleWriteF dst src g = some (src.map g ++ dst.drop src.length) := by
  simp [scaleWriteF, hl]

theorem scaleWriteF_some_length {dst src : List K} {g : K → K} {r : List K}
    (hr : scaleWriteF dst src g = some r) : r.length = dst.length := by
  by_cases hl : src.length ≤ dst.length
  · rw [scaleWriteF_some g hl] at hr
    cases hr
    simp
    omega
  · simp [scaleWriteF, hl] at hr

theorem addWriteF_some {dst src : List K} (g : K → K)
    (hl : src.length ≤ dst.length) :
    addWriteF dst src g =
      some (List.zipWith (fun d s => d + g s) dst src ++ dst.drop src.length) := by
  simp [addWriteF, hl]

theorem addWriteF_some_length {dst src : List K} {g : K → K} {r : List K}
    (hr : addWriteF dst src g = some r) : r.length = dst.length := by
  by_cases hl : src.length ≤ dst.length
  · rw [addWriteF_some g hl] at hr
    cases hr
    simp
    omega
  · simp [addWriteF, hl] at hr

theorem scaleWriteF_isSome (dst src : List K) (g : K → K)
    (hl : src.length ≤ dst.length) :
    ∃ r, scaleWriteF dst src g = some r ∧ r.length = dst.length := by
  refine ⟨_, scaleWriteF_some g hl, ?_⟩
  simp
  omega

theorem addWriteF_isSome (dst src : List K) (g : K → K)
    (hl : src.length ≤ dst.length) :
    ∃ r, addWriteF dst src g = some r ∧ r.length = dst.length := by
  refine ⟨_, addWriteF_some g hl, ?_⟩
  simp
  omega

theorem qssCommitGo_some (dq h : K) (k1 : List K) :
    ∀ (y : List K) (i : ℕ), i + y.length ≤ k1.length →
      ∃ r, qssCommitGo dq h k1 i y = some r ∧ r.length = y.length := by
  intro y
  induction y with
  | nil =>
    intro i _
    exact ⟨[], rfl, rfl⟩
  | cons yi rest ih =>
    intro i hi
    simp only [List.length_cons] at hi
    obtain ⟨r, hr, hlen⟩ := ih (i + 1) (by omega)
    by_cases hguard : |yi - yi| ≥ dq
    · have hik : i < k1.length := by omega
      refine ⟨(yi + h * k1[i]) :: r, ?_, by simp [hlen]⟩
      rw [qssCommitGo, if_pos hguard, List.getElem?_eq_getElem hik, hr]
      rfl
    · refine ⟨yi :: r, ?_, by simp [hlen]⟩
      rw [qssCommitGo, if_neg hguard, hr]
      rfl

end LengthLemmas

section Preservation

variable {K : Type} [LinearOrderedField K] [FloorRing K]

theorem vecLoop_preserves (body : K → List K → Option (List K)) (h xt : K) (L : ℕ)
    (hb : ∀ x y, y.length = L → ∃ y2, body x y = some y2 ∧ y2.length = L) :
    ∀ x (y : List K), y.length = L →
      ∃ r, vecLoop body h xt x y = some r ∧ r.length = L := by
  suffices hs : ∀ n x (y : List K), loopMeasure h xt x ≤ n → y.length = L →
      ∃ r, vecLoop body h xt x y = some r ∧ r.length = L by
    intro x y hy
    exact hs (loopMeasure h xt x) x y le_rfl hy
  intro n
  induction n with
  | zero =>
    intro x y hn hy
    have hng : ¬ (x < xt ∧ 0 < h) := by
      intro hc
      have := loopMeasure_decr hc.1 hc.2
      omega
    rw [vecLoop]
    simp [hng, hy]
  | succ n ih =>
    intro x y hn hy
    by_cases hc : x < xt ∧ 0 < h
    · obtain ⟨y2, hy2, hl2⟩ := hb x y hy
      have hm : loopMeasure h xt (x + h) ≤ n := by
        have := loopMeasure_decr hc.1 hc.2
        omega
      obtain ⟨r, hr, hlr⟩ := ih (x + h) y2 hm hl2
      refine ⟨r, ?_, hlr⟩
      rw [vecLoop]
      simp only [hc, dif_pos, hy2]
      exact hr
    · rw [vecLoop]
      simp [hc, hy]

theorem vecLoopT_preserves (body : K → List K → List K) (h xt : K) (L : ℕ)
    (hb : ∀ x y, y.length = L → (body x y).length = L) :
    ∀ x (y : List K), y.length = L → (vecLoopT body h xt x y).length = L := by
  suffices hs : ∀ n x (y : List K), loopMeasure h xt x ≤ n → y.length = L →
      (vecLoopT body h xt x y).length = L by
    intro x y hy
    exact hs (loopMeasure h xt x) x y le_rfl hy
  intro n
  induction n with
  | zero =>
    intro x y hn hy
    have hng : ¬ (x < xt ∧ 0 < h) := by
      intro hc
      have := loopMeasure_decr hc.1 hc.2
      omega
    rw [vecLoopT]
    simp [hng, hy]
  | succ n ih =>
    intro x y hn hy
    by_cases hc : x < xt ∧ 0 < h
    · have hm : loopMeasure h xt (x + h) ≤ n := by
        have := loopMeasure_decr hc.1 hc.2
        omega
      rw [vecLoopT]
      simp only [hc, dif_pos]
      exact ih (x + h) (body x y) hm (hb x y hy)
    · rw [vecLoopT]
      simp [hc, hy]

theorem euSysBody_preserves (f : K → List K → List K)
    (hf : ∀ x ys, (f x ys).length = ys.length) (h x : K) (y : List K) :
    ∃ y2, euSysBody f h x y = some y2 ∧ y2.length = y.length := by
  unfold euSysBody
  exact addWriteF_isSome _ _ _ (by simp [vec_scalar_mul_length, hf])

theorem rk4_step_length (f : K → List K → List K)
    (hf : ∀ x ys, (f x ys).length = ys.length) (x h : K) (y : List K) :
    (rk4_step x y h f).length = y.length := by
  simp [rk4_step, add_vec_length, vec_scalar_mul_length, hf]

theorem rkSysBody_preserves (f : K → List K → List K)
    (hf : ∀ x ys, (f x ys).length = ys.length) (h x : K) (y : List K) :
    ∃ y2, rkSysBody f h x y = some y2 ∧ y2.length = y.length := by
  refine ⟨rk4_step x y h f, ?_, rk4_step_length f hf x h y⟩
  unfold rkSysBody
  simp [rk4_step_length f hf x h y]

theorem lfBody_preserves (f : K → List K → List K)
    (hf : ∀ x ys, (f x ys).length = ys.length) (h x : K) (y : List K) :
    ∃ y2, lfBody f h x y = some y2 ∧ y2.length = y.length := by
  unfold lfBody
  obtain ⟨r1, hr1, hl1⟩ :=
    scaleWriteF_isSome (List.replicate y.length (0 : K)) (f x y)
      (fun v => v * h / 2) (by simp [hf])
  rw [hr1]
  dsimp only
  simp only [List.length_replicate] at hl1
  have hy1 : (add_vec y r1).length = y.length := by
    simp [add_vec_length, hl1]
  obtain ⟨r2, hr2, hl2⟩ :=
    scaleWriteF_isSome (List.replicate (add_vec y r1).length (0 : K))
      (f (x + h) (add_vec y r1)) (fun v => v * h / 2) (by simp [hf])
  rw [hr2]
  refine ⟨_, rfl, ?_⟩
  simp only [List.length_replicate] at hl2
  simp [add_vec_length, hy1, hl2]

theorem frBody_length (f : K → List K → List K)
    (hf : ∀ x ys, (f x ys).length = ys.length) (h x : K) (y : List K) :
    (frBody f h x y).length = y.length := by
  simp [frBody, add_vec_length, vec_scalar_mul_length, hf]

theorem iaBody_length (f : K → List K → List K)
    (hf : ∀ x ys, (f x ys).length = ys.length) (h x : K) (y : List K) :
    (iaBody f h x y).length = y.length := by
  simp [iaBody, add_vec_length, vec_scalar_mul_length, hf]

end Preservation

section Preservation2

variable {K : Type} [LinearOrderedField K]

theorem veIter_preserves (f : K → List K → List K)
    (hf : ∀ x ys, (f x ys).length = ys.length) (h : K) :
    ∀ (n : ℕ) (x : K) (y : List K),
      ∃ r, veIter f h n x y = some r ∧ r.length = y.length := by
  intro n
  induction n with
  | zero => intro x y; exact ⟨y, rfl, rfl⟩
  | succ n ih =>
    intro x y
    rw [veIter]
    dsimp only
    obtain ⟨k1, hk1, hlk1⟩ :=
      scaleWriteF_isSome (List.replicate y.length (0 : K)) (f x y)
        (fun v => v * (h / 2)) (by simp [hf])
    rw [hk1]
    dsimp only
    simp only [List.length_replicate] at hlk1
    obtain ⟨y1, hy1, hly1⟩ :=
      addWriteF_isSome (y) (f x y) (fun v => v * (h / 2)) (by simp [hf])
    rw [hy1]
    dsimp only
    obtain ⟨k2, hk2, hlk2⟩ :=
      scaleWriteF_isSome (List.replicate y.length (0 : K))
        (f (x + h / 2) y1) (fun v => v * h) (by simp [hf, hly1])
    rw [hk2]
    dsimp only
    obtain ⟨y2, hy2, hly2⟩ :=
      addWriteF_isSome (y1) (f (x + h / 2) y1) (fun v => v * h)
        (by simp [hf])
    rw [hy2]
    dsimp only
    obtain ⟨k1b, hk1b, hlk1b⟩ :=
      addWriteF_isSome (k1) (f (x + h / 2 + h / 2) y2)
        (fun v => v * (h / 2)) (by simp [hf, hly2, hly1, hlk1])
    rw [hk1b]
    dsimp only
    obtain ⟨y3, hy3, hly3⟩ :=
      addWriteF_isSome (y2)
        (k1b.take (f (x + h / 2 + h / 2) y2).length) (fun v => v)
        (by simp [hf, hly2, hly1, hlk1b, hlk1])
    rw [hy3]
    dsimp only
    obtain ⟨r, hr, hlr⟩ := ih (x + h / 2 + h / 2 + h / 2) y3
    refine ⟨r, hr, ?_⟩
    rw [hlr, hly3, hly2, hly1]

end Preservation2

section Preservation3

theorem yoshidaStep_preserves (f : ℝ → List ℝ → List ℝ)
    (hf : ∀ x ys, (f x ys).length = ys.length) (h x : ℝ) (y : List ℝ) :
    ∃ y2, yoshidaStep f h x y = some y2 ∧ y2.length = y.length := by
  unfold yoshidaStep
  obtain ⟨dy, hdy, hldy⟩ :=
    scaleWriteF_isSome (List.replicate y.length (0 : ℝ)) (f x y)
      (fun v => v * yoshidaC1 * h) (by simp [hf])
  rw [hdy]
  dsimp only
  simp only [List.length_replicate] at hldy
  obtain ⟨dy2, hdy2, hldy2⟩ :=
    scaleWriteF_isSome (dy)
      (f (x + yoshidaC2 * h)
        (add_vec (add_vec y (vec_scalar_mul dy yoshidaD1)) (vec_scalar_mul dy yoshidaC2)))
      (fun v => v * yoshidaC1 * h)
      (by simp [hf, add_vec_length, vec_scalar_mul_length, hldy])
  rw [hdy2]
  dsimp only
  refine ⟨_, rfl, ?_⟩
  simp [add_vec_length, vec_scalar_mul_length, hldy, hldy2]

theorem yoshidaIter_preserves (f : ℝ → List ℝ → List ℝ)
    (hf : ∀ x ys, (f x ys).length = ys.length) (h : ℝ) :
    ∀ (n : ℕ) (x : ℝ) (y : List ℝ),
      ∃ r, yoshidaIter f h n x y = some r ∧ r.length = y.length := by
  intro n
  induction n with
  | zero => intro x y; exact ⟨y, rfl, rfl⟩
  | succ n ih =>
    intro x y
    rw [yoshidaIter]
    obtain ⟨y2, hy2, hly2⟩ := yoshidaStep_preserves f hf h x y
    rw [hy2]
    dsimp only
    obtain ⟨r, hr, hlr⟩ := ih (x + h) y2
    exact ⟨r, hr, by rw [hlr, hly2]⟩

variable {K : Type} [LinearOrderedField K]

theorem qssSysStep_preserves (f : K → List K → List K)
    (hf : ∀ x ys, (f x ys).length = ys.length) (h dq x : K) (y : List K) :
    ∃ y2, qssSysStep f h dq x y = some y2 ∧ y2.length = y.length := by
  unfold qssSysStep
  dsimp only
  obtain ⟨dy, hdy, hldy⟩ :=
    scaleWriteF_isSome (List.replicate y.length (0 : K)) (f x y)
      (fun v => v * h / 2) (by simp [hf])
  rw [hdy, Option.some_bind]
  simp only [List.length_replicate] at hldy
  obtain ⟨dyt, hdyt, hldyt⟩ :=
    scaleWriteF_isSome (List.replicate y.length (0 : K)) (f x y)
      (fun v => v * 0.5 * h) (by simp [hf])
  rw [hdyt, Option.some_bind]
  simp only [List.length_replicate] at hldyt
  have hly1 : (add_vec y (vec_scalar_mul dy 0.5)).length = y.length := by
    simp [add_vec_length, vec_scalar_mul_length, hldy]
  obtain ⟨dyt2, hdyt2, hldyt2⟩ :=
    addWriteF_isSome (dyt)
      (f (x + 0.5 * h) (add_vec y (vec_scalar_mul dy 0.5)))
      (fun v => v * 0.5 * h) (by simp [hf, hly1, hldyt])
  rw [hdyt2, Option.some_bind]
  have hly2 : (add_vec (add_vec y (vec_scalar_mul dy 0.5))
      (vec_scalar_mul dyt2 0.5)).length = y.length := by
    simp [add_vec_length, vec_scalar_mul_length, hly1, hldyt2, hldyt]
  obtain ⟨dy3, hdy3, hldy3⟩ :=
    scaleWriteF_isSome (dy)
      (f (x + 0.5 * h) (add_vec (add_vec y (vec_scalar_mul dy 0.5))
        (vec_scalar_mul dyt2 0.5)))
      (fun v => v * h / 2) (by simp [hf, hly2, hldy, hldyt2, hldyt])
  rw [hdy3, Option.some_bind]
  obtain ⟨dyt3, hdyt3, hldyt3⟩ :=
    scaleWriteF_isSome (dyt2)
      (f (x + 0.5 * h) (add_vec (add_vec y (vec_scalar_mul dy 0.5))
        (vec_scalar_mul dyt2 0.5)))
      (fun v => v * 0.5 * h) (by simp [hf, hly2, hldyt2, hldyt, hldy])
  rw [hdyt3, Option.some_bind]
  have hly3 : (add_vec (add_vec (add_vec y (vec_scalar_mul dy 0.5))
      (vec_scalar_mul dyt2 0.5)) (vec_scalar_mul dy3 0.5)).length = y.length := by
    simp [add_vec_length, vec_scalar_mul_length, hly2, hldy3, hldy]
  obtain ⟨dyt4, hdyt4, hldyt4⟩ :=
    addWriteF_isSome (dyt3)
      (f (x + 0.5 * h) (add_vec (add_vec (add_vec y (vec_scalar_mul dy 0.5))
        (vec_scalar_mul dyt2 0.5)) (vec_scalar_mul dy3 0.5)))
      (fun v => v * 0.5 * h)
      (by simp [hf, hly3, hldyt3, hldyt2, hldyt, hldy])
  rw [hdyt4, Option.some_bind]
  set y4 := add_vec (add_vec (add_vec (add_vec y (vec_scalar_mul dy 0.5))
    (vec_scalar_mul dyt2 0.5)) (vec_scalar_mul dy3 0.5)) (vec_scalar_mul dyt4 0.5) with hy4def
  have hly4 : y4.length = y.length := by
    simp [hy4def, add_vec_length, vec_scalar_mul_length, hly3, hldyt4, hldyt3,
      hldyt2, hldyt, hldy]
  obtain ⟨dy5, hdy5, hldy5⟩ :=
    scaleWriteF_isSome (dy3) (f (x + 0.5 * h) y4)
      (fun v => v * h / 2) (by simp [hf, hly4, hldy3, hldy])
  rw [hdy5, Option.some_bind]
  obtain ⟨dyt5, hdyt5, hldyt5⟩ :=
    scaleWriteF_isSome (dyt4) (f (x + 0.5 * h) y4)
      (fun v => v * 0.5 * h)
      (by simp [hf, hly4, hldyt4, hldyt3, hldyt2, hldyt, hldy])
  rw [hdyt5, Option.some_bind]
  have hly5 : (add_vec y4 (vec_scalar_mul dy5 0.5)).length = y.length := by
    simp [add_vec_length, vec_scalar_mul_length, hly4, hldy5, hldy3, hldy]
  obtain ⟨dyt6, hdyt6, hldyt6⟩ :=
    addWriteF_isSome (dyt5)
      (f (x + 0.5 * h) (add_vec y4 (vec_scalar_mul dy5 0.5)))
      (fun v => v * 0.5 * h)
      (by simp [hf, hly5, hldyt5, hldyt4, hldyt3, hldyt2, hldyt, hldy])
  rw [hdyt6, Option.some_bind]
  have hly6 : (add_vec (add_vec y4 (vec_scalar_mul dy5 0.5))
      (vec_scalar_mul dyt6 0.5)).length = y.length := by
    simp [add_vec_length, vec_scalar_mul_length, hly5, hldyt6, hldyt5, hldyt4,
      hldyt3, hldyt2, hldyt, hldy]
  obtain ⟨dy7, hdy7, hldy7⟩ :=
    scaleWriteF_isSome (dy5)
      (f (x + 0.5 * h) (add_vec (add_vec y4 (vec_scalar_mul dy5 0.5))
        (vec_scalar_mul dyt6 0.5)))
      (fun v => v * h / 2)
      (by simp [hf, hly6, hldy5, hldy3, hldy])
  rw [hdy7, Option.some_bind]
  have hly7 : (add_vec (add_vec (add_vec y4 (vec_scalar_mul dy5 0.5))
      (vec_scalar_mul dyt6 0.5)) (vec_scalar_mul dy7 0.5)).length = y.length := by
    simp [add_vec_length, vec_scalar_mul_length, hly6, hldy7, hldy5, hldy3, hldy]
  have hk1 : y.length + 0 ≤ (f x y).length := by
    simp [hf]
  obtain ⟨r, hr, hlr⟩ :=
    qssCommitGo_some (dq) (h) (f x y)
      (add_vec (add_vec (add_vec y4 (vec_scalar_mul dy5 0.5))
        (vec_scalar_mul dyt6 0.5)) (vec_scalar_mul dy7 0.5)) 0
      (by simp [hf, hly7])
  exact ⟨r, hr, by rw [hlr, hly7]⟩

theorem qssIter_preserves (f : K → List K → List K)
    (hf : ∀ x ys, (f x ys).length = ys.length) (h dq : K) :
    ∀ (n : ℕ) (x : K) (y : List K),
      ∃ r, qssIter f h dq n x y = some r ∧ r.length = y.length := by
  intro n
  induction n with
  | zero => intro x y; exact ⟨y, rfl, rfl⟩
  | succ n ih =>
    intro x y
    rw [qssIter]
    obtain ⟨y2, hy2, hly2⟩ := qssSysStep_preserves f hf h dq x y
    rw [hy2, Option.some_bind]
    obtain ⟨r, hr, hlr⟩ := ih (x + h) y2
    exact ⟨r, hr, by rw [hlr, hly2]⟩

end Preservation3

section ScalarClaimHelpers

variable {K : Type} [LinearOrderedField K]

theorem rk4_const_iter (c h : K) :
    ∀ (n : ℕ) (x y : K),
      (stepIter (rk4Step (fun _ _ => c) h) h x y n).2 = y + n * (h * c) := by
  intro n
  induction n with
  | zero => intro x y; simp [stepIter]
  | succ n ih =>
    intro x y
    rw [stepIter, ih]
    have hstep : rk4Step (fun _ _ => c) h x y = y + h * c := by
      unfold rk4Step
      ring
    rw [hstep]
    push_cast
    ring

theorem rk4_linear_iter (h : K) :
    ∀ (n : ℕ) (x y : K),
      (stepIter (rk4Step (fun t _ => t) h) h x y n).2 =
        y + ∑ i in Finset.range n, (h * (x + (i : K) * h) + h ^ 2 / 2) := by
  intro n
  induction n with
  | zero => intro x y; simp [stepIter]
  | succ n ih =>
    intro x y
    rw [stepIter, ih]
    have hstep : rk4Step (fun t _ => t) h x y = y + (h * x + h ^ 2 / 2) := by
      unfold rk4Step
      ring
    rw [hstep, Finset.sum_range_succ']
    have hshift : ∀ i ∈ Finset.range n,
        h * (x + h + (i : K) * h) + h ^ 2 / 2 =
          h * (x + ((i : K) + 1) * h) + h ^ 2 / 2 := by
      intro i _
      ring
    rw [Finset.sum_congr rfl hshift]
    push_cast
    ring

theorem euler_decay_iter (h : K) :
    ∀ (n : ℕ) (x y : K),
      (stepIter (euStep (fun _ u => -u) h) h x y n).2 = y * (1 - h) ^ n := by
  intro n
  induction n with
  | zero => intro x y; simp [stepIter]
  | succ n ih =>
    intro x y
    rw [stepIter, ih]
    have hstep : euStep (fun _ u => -u) h x y = y * (1 - h) := by
      unfold euStep
      ring
    rw [hstep]
    ring

theorem rk4_decay_iter (h : K) :
    ∀ (n : ℕ) (x y : K),
      (stepIter (rk4Step (fun _ u => -u) h) h x y n).2 =
        y * (1 - h + h ^ 2 / 2 - h ^ 3 / 6 + h ^ 4 / 24) ^ n := by
  intro n
  induction n with
  | zero => intro x y; simp [stepIter]
  | succ n ih =>
    intro x y
    rw [stepIter, ih]
    have hstep : rk4Step (fun _ u => -u) h x y =
        y * (1 - h + h ^ 2 / 2 - h ^ 3 / 6 + h ^ 4 / 24) := by
      unfold rk4Step
      ring
    rw [hstep]
    ring

end ScalarClaimHelpers

/-- C9: for every ODE `f`, initial point, step size and target, `qss1_ivp`
returns exactly the same value as `eu_ivp`: the two solvers are
extensionally equal.  The `qss1_ivp` source body is the plain Euler loop
(`slope = eval(x, y); y += h * slope; x += h`), takes no `delta_q`
argument and performs no quantisation. -/
theorem qss1_ivp_eq_eu_ivp {K : Type} [LinearOrderedField K] [FloorRing K]
    (f : K → K → K) (x0 y0 h xt : K) :
    qss1_ivp f x0 y0 h xt = eu_ivp f x0 y0 h xt := rfl

/-- C5: at every step taken from state `(x, y)` with `x < x_target` and
step size `h > 0`, the Adams-Bashforth loop advances with
`y += h*(1.5*f1 - 0.5*f0)` and the Adams-Moulton loop with
`y += h*(5*f1 + 8*f0)/12`, where `f0 = f(x, y)` and
`f1 = f(x+h, y+h*f0)`; the loop state is just `(x, y)` — no history of
earlier steps is carried.  The solvers are these loops started at
`(x0, y0)`. -/
theorem adams_one_step_formulas {K : Type} [LinearOrderedField K] [FloorRing K]
    (f : K → K → K) (x y h xt : K) (hh : 0 < h) (hx : x < xt) :
    ivpLoop (abStep f h) h xt x y =
      ivpLoop (abStep f h) h xt (x + h)
        (y + h * (1.5 * f (x + h) (y + h * f x y) - 0.5 * f x y)) ∧
    ivpLoop (amStep f h) h xt x y =
      ivpLoop (amStep f h) h xt (x + h)
        (y + h * (5 * f (x + h) (y + h * f x y) + 8 * f x y) / 12) ∧
    ab_ivp f x y h xt = (ivpLoop (abStep f h) h xt x y).2 ∧
    am_ivp f x y h xt = (ivpLoop (amStep f h) h xt x y).2 := by
  refine ⟨?_, ?_, rfl, rfl⟩
  · rw [ivpLoop]
    simp only [hx, hh, and_self, dif_pos]
    rfl
  · rw [ivpLoop]
    simp only [hx, hh, and_self, dif_pos]
    rfl

/-- Witness for `adams_one_step_formulas` at `f = fun x y => x + y`,
`x = 0`, `y = 1`, `h = 1`, `x_target = 1`. -/
theorem adams_one_step_formulas_witness :
    (0 : ℚ) < 1 ∧ (0 : ℚ) < 1 ∧
    (ivpLoop (abStep (fun (x y : ℚ) => x + y) 1) 1 1 0 1 =
      ivpLoop (abStep (fun (x y : ℚ) => x + y) 1) 1 1 (0 + 1)
        (1 + 1 * (1.5 * ((0 + 1) + (1 + 1 * (0 + 1))) - 0.5 * (0 + 1))) ∧
    ivpLoop (amStep (fun (x y : ℚ) => x + y) 1) 1 1 0 1 =
      ivpLoop (amStep (fun (x y : ℚ) => x + y) 1) 1 1 (0 + 1)
        (1 + 1 * (5 * ((0 + 1) + (1 + 1 * (0 + 1))) + 8 * (0 + 1)) / 12) ∧
    ab_ivp (fun (x y : ℚ) => x + y) 0 1 1 1 =
      (ivpLoop (abStep (fun (x y : ℚ) => x + y) 1) 1 1 0 1).2 ∧
    am_ivp (fun (x y : ℚ) => x + y) 0 1 1 1 =
      (ivpLoop (amStep (fun (x y : ℚ) => x + y) 1) 1 1 0 1).2) :=
  ⟨by norm_num, by norm_num,
    adams_one_step_formulas (fun (x y : ℚ) => x + y) 0 1 1 1 (by norm_num) (by norm_num)⟩

/-- C7: for `h > 0` and `x0 < x_target`, `rk4_ivp` reproduces exact
values for stepping-error-free derivatives: with `f(x,y) = c` it returns
`y0 + n*h*c`, and with `f(x,y) = x` it returns `y0` plus the telescoped
sum of per-step integrals `∑_{i<n} (h*x_i + h²/2)` with `x_i = x0 + i*h`,
where `n = loopMeasure h x_target x0` is the number of loop iterations
(exact rational/real arithmetic). -/
theorem rk4_exact_polynomials {K : Type} [LinearOrderedField K] [FloorRing K]
    (c x0 y0 h xt : K) (hh : 0 < h) (hx : x0 < xt) :
    rk4_ivp (fun _ _ => c) x0 y0 h xt =
      y0 + (loopMeasure h xt x0 : K) * h * c ∧
    rk4_ivp (fun t _ => t) x0 y0 h xt =
      y0 + ∑ i in Finset.range (loopMeasure h xt x0),
        (h * (x0 + (i : K) * h) + h ^ 2 / 2) := by
  constructor
  · unfold rk4_ivp
    rw [ivpLoop_eq_stepIter _ _ hh, rk4_const_iter]
    ring
  · unfold rk4_ivp
    rw [ivpLoop_eq_stepIter _ _ hh, rk4_linear_iter]

/-- Witness for `rk4_exact_polynomials` at `c = 2`, `x0 = 0`, `y0 = 5`,
`h = 1`, `x_target = 3`. -/
theorem rk4_exact_polynomials_witness :
    (0 : ℚ) < 1 ∧ (0 : ℚ) < 3 ∧
    (rk4_ivp (fun _ _ => (2 : ℚ)) 0 5 1 3 =
      5 + (loopMeasure (1 : ℚ) 3 0 : ℚ) * 1 * 2 ∧
    rk4_ivp (fun t _ => t) (0 : ℚ) 5 1 3 =
      5 + ∑ i in Finset.range (loopMeasure (1 : ℚ) 3 0),
        ((1 : ℚ) * (0 + (i : ℚ) * 1) + (1 : ℚ) ^ 2 / 2)) :=
  ⟨by norm_num, by norm_num,
    rk4_exact_polynomials 2 0 5 1 3 (by norm_num) (by norm_num)⟩

/-- C3 counterexample: the claim asserts that the final internal `x`
always satisfies `x_target ≤ x < x_target + h`, but when `x0 ≥ x_target`
the loop runs zero times and the final internal `x` is `x0` itself, which
can exceed `x_target + h`: with `x0 = 10`, `x_target = 0`, `h = 1` the
Euler loop ends at `x = 10 ≥ 0 + 1`. -/
theorem fixed_step_bound_counterexample :
    (ivpLoop (euStep (fun _ _ => (0 : ℚ)) 1) 1 0 10 0).1 = 10 ∧
    ¬ (ivpLoop (euStep (fun _ _ => (0 : ℚ)) 1) 1 0 10 0).1 < 0 + 1 := by
  have hl : ivpLoop (euStep (fun _ _ => (0 : ℚ)) 1) 1 0 10 0 = (10, 0) := by
    rw [ivpLoop]
    norm_num
  rw [hl]
  norm_num

/-- C3, amended: for every scalar fixed-step solver (`eu_ivp`, `he_ivp`,
`rk2_ivp`, `rk4_ivp`) with step size `h > 0`, the loop terminates after
exactly `n = max(0, ⌈(x_target - x0)/h⌉)` steps (each solver equals the
`n`-fold iterate of its step body); the final internal `x` is
`x0 + n*h`, with `x_target ≤ x0 + n*h` always, and `x0 + n*h <
x_target + h` whenever `x0 < x_target` (at least one step).  If
`x0 ≥ x_target` the loop runs zero times and each solver returns `y0`
unchanged (but the final `x = x0` can then exceed `x_target + h`, contra
the original claim). -/
theorem fixed_step_count_and_bounds {K : Type} [LinearOrderedField K] [FloorRing K]
    (f : K → K → K) (x0 y0 h xt : K) (hh : 0 < h) :
    ((loopMeasure h xt x0 : ℕ) : ℤ) = max 0 ⌈(xt - x0) / h⌉ ∧
    eu_ivp f x0 y0 h xt = (stepIter (euStep f h) h x0 y0 (loopMeasure h xt x0)).2 ∧
    he_ivp f x0 y0 h xt = (stepIter (heStep f h) h x0 y0 (loopMeasure h xt x0)).2 ∧
    rk2_ivp f x0 y0 h xt = (stepIter (rk2Step f h) h x0 y0 (loopMeasure h xt x0)).2 ∧
    rk4_ivp f x0 y0 h xt = (stepIter (rk4Step f h) h x0 y0 (loopMeasure h xt x0)).2 ∧
    (∀ g : K → K → K, (ivpLoop g h xt x0 y0).1 = x0 + (loopMeasure h xt x0 : K) * h) ∧
    xt ≤ x0 + (loopMeasure h xt x0 : K) * h ∧
    (x0 < xt → x0 + (loopMeasure h xt x0 : K) * h < xt + h) ∧
    (xt ≤ x0 → loopMeasure h xt x0 = 0 ∧
      eu_ivp f x0 y0 h xt = y0 ∧ he_ivp f x0 y0 h xt = y0 ∧
      rk2_ivp f x0 y0 h xt = y0 ∧ rk4_ivp f x0 y0 h xt = y0) := by
  refine ⟨?_, ?_, ?_, ?_, ?_, ?_, final_x_ge hh, fun hx => final_x_lt hh hx, ?_⟩
  · unfold loopMeasure
    omega
  · unfold eu_ivp
    rw [ivpLoop_eq_stepIter _ _ hh]
  · unfold he_ivp
    rw [ivpLoop_eq_stepIter _ _ hh]
  · unfold rk2_ivp
    rw [ivpLoop_eq_stepIter _ _ hh]
  · unfold rk4_ivp
    rw [ivpLoop_eq_stepIter _ _ hh]
  · intro g
    rw [ivpLoop_eq_stepIter _ _ hh, stepIter_fst]
  · intro hge
    refine ⟨loopMeasure_zero_of_ge hh hge, ?_, ?_, ?_, ?_⟩
    · unfold eu_ivp
      rw [ivpLoop_of_ge _ _ hge]
    · unfold he_ivp
      rw [ivpLoop_of_ge _ _ hge]
    · unfold rk2_ivp
      rw [ivpLoop_of_ge _ _ hge]
    · unfold rk4_ivp
      rw [ivpLoop_of_ge _ _ hge]

/-- Witness for `fixed_step_count_and_bounds` at `f = fun x y => x + y`,
`x0 = 0`, `y0 = 1`, `h = 1`, `x_target = 2`. -/
theorem fixed_step_count_and_bounds_witness :
    (0 : ℚ) < 1 ∧
    (((loopMeasure (1 : ℚ) 2 0 : ℕ) : ℤ) = max 0 ⌈((2 : ℚ) - 0) / 1⌉ ∧
    eu_ivp (fun (x y : ℚ) => x + y) 0 1 1 2 =
      (stepIter (euStep (fun (x y : ℚ) => x + y) 1) 1 0 1 (loopMeasure (1 : ℚ) 2 0)).2 ∧
    he_ivp (fun (x y : ℚ) => x + y) 0 1 1 2 =
      (stepIter (heStep (fun (x y : ℚ) => x + y) 1) 1 0 1 (loopMeasure (1 : ℚ) 2 0)).2 ∧
    rk2_ivp (fun (x y : ℚ) => x + y) 0 1 1 2 =
      (stepIter (rk2Step (fun (x y : ℚ) => x + y) 1) 1 0 1 (loopMeasure (1 : ℚ) 2 0)).2 ∧
    rk4_ivp (fun (x y : ℚ) => x + y) 0 1 1 2 =
      (stepIter (rk4Step (fun (x y : ℚ) => x + y) 1) 1 0 1 (loopMeasure (1 : ℚ) 2 0)).2 ∧
    (∀ g : ℚ → ℚ → ℚ, (ivpLoop g 1 2 0 1).1 = 0 + (loopMeasure (1 : ℚ) 2 0 : ℚ) * 1) ∧
    (2 : ℚ) ≤ 0 + (loopMeasure (1 : ℚ) 2 0 : ℚ) * 1 ∧
    ((0 : ℚ) < 2 → 0 + (loopMeasure (1 : ℚ) 2 0 : ℚ) * 1 < 2 + 1) ∧
    ((2 : ℚ) ≤ 0 → loopMeasure (1 : ℚ) 2 0 = 0 ∧
      eu_ivp (fun (x y : ℚ) => x + y) 0 1 1 2 = 1 ∧
      he_ivp (fun (x y : ℚ) => x + y) 0 1 1 2 = 1 ∧
      rk2_ivp (fun (x y : ℚ) => x + y) 0 1 1 2 = 1 ∧
      rk4_ivp (fun (x y : ℚ) => x + y) 0 1 1 2 = 1)) :=
  ⟨by norm_num, fixed_step_count_and_bounds (fun (x y : ℚ) => x + y) 0 1 1 2 (by norm_num)⟩

/-- C8: for `dy/dx = -y`, `y0 = 1`, `x0 = 0`, `h = 0.01`,
`x_target = 1.0` (in the exact arithmetic of the embedding): the Euler
solver returns exactly `(99/100)^100 ≈ 0.36603` (0.3660 to the stated
rounding) and the RK4 solver returns exactly `r^100` with
`r = 1 - h + h²/2 - h³/6 + h⁴/24`, which is `0.367879` to six decimal
places and within `10⁻⁶` of the analytic value `e⁻¹`. -/
theorem literal_scenario :
    eu_ivp (fun _ y => -y) 0 1 (1/100 : ℚ) 1 = (99/100 : ℚ) ^ 100 ∧
    |(99/100 : ℚ) ^ 100 - 0.3660| < 5/100000 ∧
    rk4_ivp (fun _ y => -y) 0 1 (1/100 : ℚ) 1 =
      ((1 : ℚ) - 1/100 + (1/100) ^ 2 / 2 - (1/100) ^ 3 / 6 + (1/100) ^ 4 / 24) ^ 100 ∧
    |((1 : ℚ) - 1/100 + (1/100) ^ 2 / 2 - (1/100) ^ 3 / 6 + (1/100) ^ 4 / 24) ^ 100
      - 0.367879| < 5/10000000 ∧
    |((((1 : ℚ) - 1/100 + (1/100) ^ 2 / 2 - (1/100) ^ 3 / 6 + (1/100) ^ 4 / 24) ^ 100 : ℚ) : ℝ)
      - Real.exp (-1)| < 1/1000000 := by
  have hm : loopMeasure (1/100 : ℚ) 1 0 = 100 := by
    unfold loopMeasure
    norm_num
    rfl
  refine ⟨?_, ?_, ?_, ?_, ?_⟩
  · unfold eu_ivp
    rw [ivpLoop_eq_stepIter _ _ (by norm_num : (0 : ℚ) < 1/100),
      euler_decay_iter, hm]
    norm_num
  · rw [abs_lt]
    constructor <;> norm_num
  · unfold rk4_ivp
    rw [ivpLoop_eq_stepIter _ _ (by norm_num : (0 : ℚ) < 1/100),
      rk4_decay_iter, hm]
    norm_num
  · rw [abs_lt]
    constructor <;> norm_num
  · have h1 : (2.7182818283 : ℝ) < Real.exp 1 := Real.exp_one_gt_d9
    have h2 : Real.exp 1 < 2.7182818286 := Real.exp_one_lt_d9
    rw [Real.exp_neg]
    have hlo : ((2.7182818286 : ℝ))⁻¹ < (Real.exp 1)⁻¹ :=
      inv_strictAnti₀ (Real.exp_pos 1) h2
    have hhi : (Real.exp 1)⁻¹ < ((2.7182818283 : ℝ))⁻¹ :=
      inv_strictAnti₀ (by norm_num) h1
    rw [abs_lt]
    constructor
    · push_cast
      nlinarith [hlo]
    · push_cast
      nlinarith [hhi]

/-- C4: for every vector integrator in the library (`eu_solve`,
`rk_solve`, `lf_solve`, `fr_solve`, `ia_solve`, `ve_solve`,
`Yoshida4thSysSolver::solve`, `QSSSysSolver::solve`), every initial state
vector of dimension 1..10, and every derivative function whose output
length always equals its input state length, the integrator runs without
panicking and the returned state vector has the same length as the input
initial-condition vector. -/
theorem dimension_invariant (f : ℝ → List ℝ → List ℝ)
    (hf : ∀ x ys, (f x ys).length = ys.length) (y0 : List ℝ)
    (hdim : 1 ≤ y0.length ∧ y0.length ≤ 10)
    (x xt h a b : ℝ) (n : ℕ) (dq : ℝ) :
    (∃ r, eu_solve f x y0 xt h = some r ∧ r.length = y0.length) ∧
    (∃ r, rk_solve f x y0 xt h = some r ∧ r.length = y0.length) ∧
    (∃ r, lf_solve f x y0 xt h = some r ∧ r.length = y0.length) ∧
    (fr_solve f x y0 xt h).length = y0.length ∧
    (ia_solve f x y0 xt h).length = y0.length ∧
    (∃ r, ve_solve f x y0 a b n = some r ∧ r.length = y0.length) ∧
    (∃ r, yoshida4Solve f x y0 a b n = some r ∧ r.length = y0.length) ∧
    (∃ r, qssSysSolve f x y0 a b n dq = some r ∧ r.length = y0.length) := by
  refine ⟨?_, ?_, ?_, ?_, ?_, ?_, ?_, ?_⟩
  · exact vecLoop_preserves _ h xt y0.length
      (fun x1 y1 hy1 => by
        obtain ⟨y2, h2, hl2⟩ := euSysBody_preserves f hf h x1 y1
        exact ⟨y2, h2, by rw [hl2, hy1]⟩) x y0 rfl
  · exact vecLoop_preserves _ h xt y0.length
      (fun x1 y1 hy1 => by
        obtain ⟨y2, h2, hl2⟩ := rkSysBody_preserves f hf h x1 y1
        exact ⟨y2, h2, by rw [hl2, hy1]⟩) x y0 rfl
  · exact vecLoop_preserves _ h xt y0.length
      (fun x1 y1 hy1 => by
        obtain ⟨y2, h2, hl2⟩ := lfBody_preserves f hf h x1 y1
        exact ⟨y2, h2, by rw [hl2, hy1]⟩) x y0 rfl
  · exact vecLoopT_preserves _ h xt y0.length
      (fun x1 y1 hy1 => by rw [frBody_length f hf h x1 y1, hy1]) x y0 rfl
  · exact vecLoopT_preserves _ h xt y0.length
      (fun x1 y1 hy1 => by rw [iaBody_length f hf h x1 y1, hy1]) x y0 rfl
  · exact veIter_preserves f hf _ n x y0
  · exact yoshidaIter_preserves f hf _ n x y0
  · exact qssIter_preserves f hf _ dq n x y0

/-- Witness for `dimension_invariant`: the two-dimensional identity-drift
system `f x ys = ys` with `y0 = [1, 2]`. -/
theorem dimension_invariant_witness :
    (∀ (x : ℝ) (ys : List ℝ), ((fun (_ : ℝ) (ys : List ℝ) => ys) x ys).length = ys.length) ∧
    (1 ≤ ([1, 2] : List ℝ).length ∧ ([1, 2] : List ℝ).length ≤ 10) ∧
    ((∃ r, eu_solve (fun _ ys => ys) 0 ([1, 2] : List ℝ) 1 1 = some r ∧
        r.length = ([1, 2] : List ℝ).length) ∧
    (∃ r, rk_solve (fun _ ys => ys) 0 ([1, 2] : List ℝ) 1 1 = some r ∧
        r.length = ([1, 2] : List ℝ).length) ∧
    (∃ r, lf_solve (fun _ ys => ys) 0 ([1, 2] : List ℝ) 1 1 = some r ∧
        r.length = ([1, 2] : List ℝ).length) ∧
    (fr_solve (fun _ ys => ys) 0 ([1, 2] : List ℝ) 1 1).length = ([1, 2] : List ℝ).length ∧
    (ia_solve (fun _ ys => ys) 0 ([1, 2] : List ℝ) 1 1).length = ([1, 2] : List ℝ).length ∧
    (∃ r, ve_solve (fun _ ys => ys) 0 ([1, 2] : List ℝ) 0 1 3 = some r ∧
        r.length = ([1, 2] : List ℝ).length) ∧
    (∃ r, yoshida4Solve (fun _ ys => ys) 0 ([1, 2] : List ℝ) 0 1 3 = some r ∧
        r.length = ([1, 2] : List ℝ).length) ∧
    (∃ r, qssSysSolve (fun _ ys => ys) 0 ([1, 2] : List ℝ) 0 1 3 (1/2) = some r ∧
        r.length = ([1, 2] : List ℝ).length)) :=
  ⟨fun _ _ => rfl, by norm_num,
    dimension_invariant (fun _ ys => ys) (fun _ _ => rfl) [1, 2] (by norm_num)
      0 1 1 0 1 3 (1/2)⟩

/-- C2 counterexample: no `DimensionMismatch` error exists anywhere in the
code (the integrators return plain vectors and have no error channel).
With a derivative function returning a vector shorter than the state
(`f = fun _ _ => [1]`, state `[0, 0]`), `eu_solve` does not fail fast: it
silently adds the update only to the leading entry, leaves the second
entry untouched, and returns normally (`some [1, 0]`). -/
theorem dimension_mismatch_counterexample :
    ((fun (_ : ℚ) (_ : List ℚ) => [(1 : ℚ)]) 0 [0, 0]).length ≠
      ([0, 0] : List ℚ).length ∧
    eu_solve (fun _ _ => [1]) 0 ([0, 0] : List ℚ) 1 1 = some [1, 0] := by
  constructor
  · norm_num
  · rw [eu_solve, vecLoop]
    norm_num [euSysBody, addWriteF, vec_scalar_mul]
    rw [vecLoop]
    norm_num

/-- C2, amended: on a dimension mismatch the vector integrators do not
signal a `DimensionMismatch` error (none exists).  In `eu_solve`, a
derivative vector no longer than the state silently updates only the
leading entries and the loop continues normally; a derivative vector
longer than the state makes the index write panic (modelled `none`).  In
`rk_solve`, any length change of the `rk4_step` result makes
`clone_from_slice` panic (modelled `none`). -/
theorem dimension_mismatch_behavior {K : Type} [LinearOrderedField K] [FloorRing K]
    (f : K → List K → List K) (x h xt : K) (y : List K) (hh : 0 < h) (hx : x < xt) :
    ((f x y).length ≤ y.length →
      eu_solve f x y xt h =
        vecLoop (euSysBody f h) h xt (x + h)
          (List.zipWith (fun d s => d + s) y (vec_scalar_mul (f x y) h) ++
            y.drop (f x y).length)) ∧
    (y.length < (f x y).length → eu_solve f x y xt h = none) ∧
    ((rk4_step x y h f).length ≠ y.length → rk_solve f x y xt h = none) := by
  refine ⟨?_, ?_, ?_⟩
  · intro hle
    unfold eu_solve
    rw [vecLoop]
    simp only [hx, hh, and_self, dif_pos]
    rw [euSysBody, addWriteF_some _ (by simpa [vec_scalar_mul] using hle)]
    simp [vec_scalar_mul]
  · intro hlt
    unfold eu_solve
    rw [vecLoop]
    simp only [hx, hh, and_self, dif_pos]
    have hn : ¬ ((vec_scalar_mul (f x y) h).length ≤ y.length) := by
      simp only [vec_scalar_mul, List.length_map, not_le]
      exact hlt
    simp [euSysBody, addWriteF, hn]
  · intro hne
    unfold rk_solve
    rw [vecLoop]
    simp only [hx, hh, and_self, dif_pos]
    simp [rkSysBody, hne]

/-- Witness for `dimension_mismatch_behavior` at `f = fun _ _ => [1]`,
`x = 0`, `h = 1`, `x_target = 1`, `y = [0, 0]`. -/
theorem dimension_mismatch_behavior_witness :
    (0 : ℚ) < 1 ∧ (0 : ℚ) < 1 ∧
    ((((fun (_ : ℚ) (_ : List ℚ) => [(1 : ℚ)]) 0 [0, 0]).length ≤ ([0, 0] : List ℚ).length →
      eu_solve (fun _ _ => [1]) 0 ([0, 0] : List ℚ) 1 1 =
        vecLoop (euSysBody (fun _ _ => [1]) 1) 1 1 (0 + 1)
          (List.zipWith (fun d s => d + s) ([0, 0] : List ℚ)
            (vec_scalar_mul ((fun (_ : ℚ) (_ : List ℚ) => [(1 : ℚ)]) 0 [0, 0]) 1) ++
            ([0, 0] : List ℚ).drop
              ((fun (_ : ℚ) (_ : List ℚ) => [(1 : ℚ)]) 0 [0, 0]).length)) ∧
    (([0, 0] : List ℚ).length < ((fun (_ : ℚ) (_ : List ℚ) => [(1 : ℚ)]) 0 [0, 0]).length →
      eu_solve (fun _ _ => [1]) 0 ([0, 0] : List ℚ) 1 1 = none) ∧
    ((rk4_step 0 ([0, 0] : List ℚ) 1 (fun _ _ => [1])).length ≠ ([0, 0] : List ℚ).length →
      rk_solve (fun _ _ => [1]) 0 ([0, 0] : List ℚ) 1 1 = none)) :=
  ⟨by norm_num, by norm_num,
    dimension_mismatch_behavior (fun _ _ => [1]) 0 1 1 [0, 0] (by norm_num) (by norm_num)⟩

theorem optBind_congr {α β : Type} (o : Option α) {f g : α → Option β}
    (h : ∀ a, f a = g a) : o.bind f = o.bind g := by
  cases o <;> simp [h]

theorem qssCommitGo_pos {K : Type} [LinearOrderedField K] {dq h : K}
    (hdq : 0 < dq) (k1 : List K) :
    ∀ (i : ℕ) (y : List K), qssCommitGo dq h k1 i y = some y := by
  intro i y
  induction y generalizing i with
  | nil => rfl
  | cons yi rest ih =>
    rw [qssCommitGo]
    have hng : ¬ |yi - yi| ≥ dq := by
      simp only [sub_self, abs_zero, ge_iff_le, not_le]
      exact hdq
    rw [if_neg hng, ih]
    rfl

theorem qssSysStep_dq_congr {K : Type} [LinearOrderedField K]
    (f : K → List K → List K) (h x : K) (y : List K) {dq dq2 : K}
    (h1 : 0 < dq) (h2 : 0 < dq2) :
    qssSysStep f h dq x y = qssSysStep f h dq2 x y := by
  unfold qssSysStep
  refine optBind_congr _ fun dy => ?_
  refine optBind_congr _ fun dyt => ?_
  dsimp only
  refine optBind_congr _ fun dyt2 => ?_
  dsimp only
  refine optBind_congr _ fun dy3 => ?_
  refine optBind_congr _ fun dyt3 => ?_
  dsimp only
  refine optBind_congr _ fun dyt4 => ?_
  dsimp only
  refine optBind_congr _ fun dy5 => ?_
  refine optBind_congr _ fun dyt5 => ?_
  dsimp only
  refine optBind_congr _ fun dyt6 => ?_
  dsimp only
  refine optBind_congr _ fun dy7 => ?_
  dsimp only
  rw [qssCommitGo_pos h1, qssCommitGo_pos h2]

theorem qssIter_dq_congr {K : Type} [LinearOrderedField K]
    (f : K → List K → List K) (h : K) {dq dq2 : K}
    (h1 : 0 < dq) (h2 : 0 < dq2) :
    ∀ (n : ℕ) (x : K) (y : List K),
      qssIter f h dq n x y = qssIter f h dq2 n x y := by
  intro n
  induction n with
  | zero => intro x y; rfl
  | succ n ih =>
    intro x y
    rw [qssIter, qssIter, qssSysStep_dq_congr f h x y h1 h2]
    exact optBind_congr _ fun a => ih (x + h) a

/-- C10 counterexample: the result of `QSSSysSolver::solve` is *not*
independent of `delta_q`, and the guarded update is *not* unreachable:
`(y[i] - y[i]).abs() >= delta_q` is `0 >= delta_q`, which holds whenever
`delta_q ≤ 0`.  With `f = fun _ _ => [1]`, `y = [0]`, `a = 0`, `b = 1`,
`n = 1`: `delta_q = 1` yields `some [5/2]` while `delta_q = 0` fires the
branch `y[i] += h * k1[i]` and yields `some [7/2]`. -/
theorem qss_delta_q_counterexample :
    qssSysSolve (fun _ _ => [1]) 0 ([0] : List ℚ) 0 1 1 (1 : ℚ) = some [5/2] ∧
    qssSysSolve (fun _ _ => [1]) 0 ([0] : List ℚ) 0 1 1 (0 : ℚ) = some [7/2] ∧
    qssSysSolve (fun _ _ => [1]) 0 ([0] : List ℚ) 0 1 1 (1 : ℚ) ≠
      qssSysSolve (fun _ _ => [1]) 0 ([0] : List ℚ) 0 1 1 (0 : ℚ) := by
  refine ⟨?_, ?_, ?_⟩
  · norm_num [qssSysSolve, qssIter, qssSysStep, scaleWriteF, addWriteF, add_vec,
      vec_scalar_mul, qssCommitGo, List.replicate]
  · norm_num [qssSysSolve, qssIter, qssSysStep, scaleWriteF, addWriteF, add_vec,
      vec_scalar_mul, qssCommitGo, List.replicate]
  · norm_num [qssSysSolve, qssIter, qssSysStep, scaleWriteF, addWriteF, add_vec,
      vec_scalar_mul, qssCommitGo, List.replicate]

/-- C10, amended: the result of `QSSSysSolver::solve` is independent of
`delta_q` only across *positive* values of `delta_q`: for `delta_q > 0`
the guard `(y[i] - y[i]).abs() >= delta_q`, i.e. `0 >= delta_q`, never
holds and the commit loop returns the state unchanged, so any two
positive thresholds give identical results.  (For `delta_q ≤ 0` the
guard always holds and the branch `y[i] += h * k1[i]` executes, as the
counterexample shows.) -/
theorem qss_delta_q_amended {K : Type} [LinearOrderedField K]
    (f : K → List K → List K) (x a b : K) (y : List K) (n : ℕ)
    (dq dq2 : K) (h1 : 0 < dq) (h2 : 0 < dq2) :
    qssSysSolve f x y a b n dq = qssSysSolve f x y a b n dq2 ∧
    (∀ (h : K) (k1 : List K) (i : ℕ) (ys : List K),
      qssCommitGo dq h k1 i ys = some ys) :=
  ⟨qssIter_dq_congr f _ h1 h2 n x y, fun h k1 i ys => qssCommitGo_pos h1 k1 i ys⟩

/-- Witness for `qss_delta_q_amended` at `delta_q = 1`, `delta_q' = 2`. -/
theorem qss_delta_q_amended_witness :
    (0 : ℚ) < 1 ∧ (0 : ℚ) < 2 ∧
    (qssSysSolve (fun _ _ => [1]) 0 ([0] : List ℚ) 0 1 1 (1 : ℚ) =
      qssSysSolve (fun _ _ => [1]) 0 ([0] : List ℚ) 0 1 1 (2 : ℚ) ∧
    (∀ (h : ℚ) (k1 : List ℚ) (i : ℕ) (ys : List ℚ),
      qssCommitGo (1 : ℚ) h k1 i ys = some ys)) :=
  ⟨by norm_num, by norm_num,
    qss_delta_q_amended (fun _ _ => [1]) 0 0 1 [0] 1 1 2 (by norm_num) (by norm_num)⟩

section YoshidaFacts

theorem cbrt2_pos : (0 : ℝ) < (2 : ℝ) ^ ((1 : ℝ) / 3) :=
  Real.rpow_pos_of_pos (by norm_num) _

theorem cbrt2_lt_two : (2 : ℝ) ^ ((1 : ℝ) / 3) < 2 := by
  have h := (Real.rpow_lt_rpow_left_iff (by norm_num : (1 : ℝ) < 2)).mpr
    (by norm_num : (1 : ℝ) / 3 < 1)
  rwa [Real.rpow_one] at h

theorem cbrt2_cube : ((2 : ℝ) ^ ((1 : ℝ) / 3)) ^ (3 : ℕ) = 2 := by
  rw [← Real.rpow_natCast ((2 : ℝ) ^ ((1 : ℝ) / 3)) 3,
    ← Real.rpow_mul (by norm_num : (0 : ℝ) ≤ 2)]
  norm_num

theorem two_sub_cbrt2_ne : (2 : ℝ) - (2 : ℝ) ^ ((1 : ℝ) / 3) ≠ 0 :=
  (sub_pos.mpr cbrt2_lt_two).ne'

theorem yoshidaC1_identity :
    yoshidaC1 * ((2 : ℝ) - (2 : ℝ) ^ ((1 : ℝ) / 3)) = 1 := by
  unfold yoshidaC1
  rw [one_div, inv_mul_cancel₀ two_sub_cbrt2_ne]

theorem yoshida_weight_sum : yoshidaD1 + yoshidaC2 + yoshidaD2 = 1 := by
  unfold yoshidaD1 yoshidaD2 yoshidaC2
  linear_combination -yoshidaC1_identity

theorem yoshidaC1_ne_one : yoshidaC1 ≠ 1 := by
  intro h
  have ht1 : (2 : ℝ) ^ ((1 : ℝ) / 3) ≠ 1 := by
    intro he
    have hc := cbrt2_cube
    rw [he] at hc
    norm_num at hc
  unfold yoshidaC1 at h
  rw [div_eq_one_iff_eq two_sub_cbrt2_ne] at h
  exact ht1 (by linarith)

theorem yoshidaStep_const (c v h x : ℝ) :
    yoshidaStep (fun _ _ => [c]) h x [v] = some [v + yoshidaC1 * (h * c)] := by
  simp only [yoshidaStep, List.length_singleton, List.replicate, scaleWriteF,
    List.length_cons, List.length_nil, le_refl, if_true, List.map_cons,
    List.map_nil, List.drop, List.append_nil, add_vec, vec_scalar_mul,
    List.zipWith_cons_cons, List.zipWith_nil_right]
  refine congrArg some (congrArg (fun t => [t]) ?_)
  linear_combination (c * yoshidaC1 * h) * yoshida_weight_sum

theorem frBody_const (c v h x : ℝ) :
    frBody (fun _ _ => [c]) h x [v] = [v + h * c] := by
  simp only [frBody, add_vec, vec_scalar_mul, List.map_cons, List.map_nil,
    List.zipWith_cons_cons, List.zipWith_nil_right]
  refine congrArg (fun t => [t]) ?_
  ring

end YoshidaFacts

/-- C6 counterexample: `fr_solve` does not apply the symplectic
composition update built from `c1, c2, d1, d2`.  On the constant
one-dimensional system `f = fun _ _ => [1]` with one step of size 1, the
`c1,c2,d1,d2` composition (as implemented by the Yoshida solver, the only
place those coefficients exist) produces `[c1] = [1/(2 - 2^(1/3))] ≈
[1.3512]`, while `fr_solve` performs a plain RK4-style step and returns
`[1]`; the two disagree, and `fr_solve`'s source contains no cube-root
coefficients at all. -/
theorem fr_composition_counterexample :
    fr_solve (fun _ _ => [1]) (0 : ℝ) [0] 1 1 = [1] ∧
    yoshida4Solve (fun _ _ => [1]) (0 : ℝ) [0] 0 1 1 = some [yoshidaC1] ∧
    yoshidaC1 ≠ 1 ∧
    fr_solve (fun _ _ => [1]) (0 : ℝ) [0] 1 1 ≠ [yoshidaC1] := by
  have hfr : fr_solve (fun _ _ => [1]) (0 : ℝ) [0] 1 1 = [1] := by
    rw [fr_solve, vecLoopT]
    norm_num
    rw [frBody_const 1 0 1 0, vecLoopT]
    norm_num
  have h1 : yoshidaIter (fun _ _ => [(1 : ℝ)]) 1 1 0 [0] = some [yoshidaC1] := by
    rw [show (1 : ℕ) = 0 + 1 from rfl, yoshidaIter, yoshidaStep_const 1 0 1 0]
    dsimp only
    rw [yoshidaIter]
    norm_num
  have hyo : yoshida4Solve (fun _ _ => [1]) (0 : ℝ) [0] 0 1 1 = some [yoshidaC1] := by
    rw [yoshida4Solve]
    norm_num
    exact h1
  refine ⟨hfr, hyo, yoshidaC1_ne_one, ?_⟩
  rw [hfr]
  intro hcontra
  exact yoshidaC1_ne_one (by injection hcontra with h1 _; exact h1.symm)

/-- C6, amended: only the Yoshida 4th-order solver applies the symplectic
composition update built from the cube-root-of-2 coefficients
`c1 = 1/(2 - 2^(1/3))`, `c2 = -2^(1/3)*c1`, `d1 = 1 - 2*c1`,
`d2 = 1 - 2*c2`, as a sequence of sub-stage updates iterated `n` times
with `h = (b-a)/n`.  The Forest-Ruth solver `fr_solve`, despite its name,
uses no composition coefficients: each of its iterations is the four-stage
Runge-Kutta-style body `frBody` (weights `(k1 + 2(k2+k3) + k4)/6`); on a
constant derivative it produces `v + h*c` where the Yoshida composition
step produces `v + c1*h*c`. -/
theorem composition_methods_amended (c v h x : ℝ) :
    yoshidaC1 = 1 / (2 - (2 : ℝ) ^ ((1 : ℝ) / 3)) ∧
    yoshidaC2 = -(2 : ℝ) ^ ((1 : ℝ) / 3) * yoshidaC1 ∧
    yoshidaD1 = 1 - 2 * yoshidaC1 ∧
    yoshidaD2 = 1 - 2 * yoshidaC2 ∧
    (∀ (f : ℝ → List ℝ → List ℝ) (x0 a b : ℝ) (y0 : List ℝ) (n : ℕ),
      yoshida4Solve f x0 y0 a b n = yoshidaIter f ((b - a) / (n : ℝ)) n x0 y0) ∧
    yoshidaStep (fun _ _ => [c]) h x [v] = some [v + yoshidaC1 * (h * c)] ∧
    frBody (fun _ _ => [c]) h x [v] = [v + h * c] ∧
    (∀ (f : ℝ → List ℝ → List ℝ) (x0 xt h0 : ℝ) (y0 : List ℝ),
      fr_solve f x0 y0 xt h0 = vecLoopT (frBody f h0) h0 xt x0 y0) :=
  ⟨rfl, rfl, rfl, rfl, fun _ _ _ _ _ _ => rfl,
    yoshidaStep_const c v h x, frBody_const c v h x, fun _ _ _ _ _ => rfl⟩

/-- C1 counterexample: the accepted `y` of an RKF step is *not* the
order-5 estimate.  For `dy/dx = y` at `(x, y) = (0, 1)` with `h = 1` the
source's accepted `y_next` (the `c`-row / order-4 value) is `106/39 ≈
2.71795`, while the order-5 estimate `y_next_star` is `3391/1248 ≈
2.71715`; the step returns the former. -/
theorem rkf_accepts_counterexample :
    (rkfStep (fun _ y => y) 0 1 1 (1e-6)).1 = 106 / 39 ∧
    rkfOrder5 (fun _ y => y) 0 1 1 = 3391 / 1248 ∧
    (rkfStep (fun _ y => y) 0 1 1 (1e-6)).1 ≠ rkfOrder5 (fun _ y => y) 0 1 1 := by
  refine ⟨?_, ?_, ?_⟩
  · simp only [rkfStep]
    norm_num
  · simp only [rkfOrder5]
    norm_num
  · simp only [rkfStep, rkfOrder5]
    norm_num

/-- C1, amended: each RKF iteration computes the six Fehlberg stages and
both embedded estimates; the accepted `y` is the *order-4* estimate
(`y_next`, built from the `c` weight row `25/216, 0, 1408/2565,
2197/4104, -1/5, 0`), not the order-5 one; the following step size is
`h * (tolerance/error)^0.2` with `error` the absolute difference of the
two estimates and the tolerance fixed at `1e-6` by `rkf_ivp`; and every
step is accepted — whenever `x < x_target` the loop unconditionally
advances with the step's outputs, with no rejection or retry. -/
theorem rkf_step_amended (f : ℝ → ℝ → ℝ) (x y h h0 x0 y0 xt tol : ℝ)
    (fuel : ℕ) (hx : x < xt) :
    (rkfStep f x y h tol).1 = rkfOrder4 f x y h ∧
    (rkfStep f x y h tol).2 =
      h * (tol / |rkfOrder4 f x y h - rkfOrder5 f x y h|) ^ (0.2 : ℝ) ∧
    rkfLoop f xt tol (fuel + 1) x y h =
      rkfLoop f xt tol fuel (x + h) (rkfStep f x y h tol).1
        (rkfStep f x y h tol).2 ∧
    rkf_ivp fuel f x0 y0 h0 xt = rkfLoop f xt (1e-6) fuel x0 y0 h0 := by
  refine ⟨rfl, rfl, ?_, rfl⟩
  rw [rkfLoop, if_pos hx]

/-- Witness for `rkf_step_amended` at `f = fun _ y => y`, `x = 0`,
`y = 1`, `h = 1`, `x_target = 1`, `tol = 1e-6`, one unit of fuel. -/
theorem rkf_step_amended_witness :
    (0 : ℝ) < 1 ∧
    ((rkfStep (fun _ y => y) 0 1 1 (1e-6)).1 = rkfOrder4 (fun _ y => y) 0 1 1 ∧
    (rkfStep (fun _ y => y) 0 1 1 (1e-6)).2 =
      1 * ((1e-6) / |rkfOrder4 (fun _ y => y) 0 1 1 -
        rkfOrder5 (fun _ y => y) 0 1 1|) ^ (0.2 : ℝ) ∧
    rkfLoop (fun _ y => y) 1 (1e-6) (0 + 1) 0 1 1 =
      rkfLoop (fun _ y => y) 1 (1e-6) 0 (0 + 1) ((rkfStep (fun _ y => y) 0 1 1 (1e-6)).1)
        ((rkfStep (fun _ y => y) 0 1 1 (1e-6)).2) ∧
    rkf_ivp 0 (fun _ y => y) 0 1 1 1 = rkfLoop (fun _ y => y) 1 (1e-6) 0 0 1 1) :=
  ⟨by norm_num,
    rkf_step_amended (fun _ y => y) 0 1 1 1 0 1 1 (1e-6) 0 (by norm_num)⟩
